import Mathlib

/-!
Verification of the node-controller peer layer: the transfer-protocol codec,
the multi-stream file-transfer engine, the discovery peer registry and the
interface selector, shallowly embedded from the Rust sources
(`src/networking/file_transfer.rs`, `discovery.rs`, `interface.rs`).

Strings carried on the wire are modelled as their UTF-8 byte lists
(`List Nat`); machine integers are `Nat` with explicit `% 2^32` / `% 2^64`
where the source truncates.  Floating-point-only fields of progress events
(percentages, throughput) are omitted; the one float computation that feeds
control flow (`ceil` for chunk counts, exact for all realistic sizes) is
modelled as the natural-number ceiling.
-/

namespace NodeController

/-! ### Transfer protocol codec (file_transfer.rs, send_file_range lines 708-731, handle_incoming_file lines 447-484) -/

/-- Wire header of one transfer connection: field values as carried in the
big-endian length-prefixed layout.  `fileId`, `fileName`, `fileHash` are the
UTF-8 bytes of the corresponding strings. -/
structure FileHeader where
  fileId : List Nat
  fileName : List Nat
  fileSize : Nat
  rangeStart : Nat
  rangeEnd : Nat
  fileHash : List Nat
deriving DecidableEq, Repr

/-- Big-endian bytes of a `u32` (`u32::to_be_bytes`); the source casts
lengths with `as u32`, hence the truncation mod `2^32`. -/
def u32be (n : Nat) : List Nat :=
  [n / 16777216 % 256, n / 65536 % 256, n / 256 % 256, n % 256]

/-- Big-endian bytes of a `u64` (`u64::to_be_bytes`). -/
def u64be (n : Nat) : List Nat :=
  [n / 72057594037927936 % 256, n / 281474976710656 % 256,
   n / 1099511627776 % 256, n / 4294967296 % 256,
   n / 16777216 % 256, n / 65536 % 256, n / 256 % 256, n % 256]

/-- Big-endian value of a byte list (`u32::from_be_bytes` / `u64::from_be_bytes`). -/
def beToNat (l : List Nat) : Nat := l.foldl (fun a b => a * 256 + b) 0

/-- Errors of the receive-side header decode.  A short read
(`read_exact` hitting EOF) is the incomplete-header error. -/
inductive HeaderError where
  | incompleteHeader
deriving DecidableEq, Repr

/-- Model of `read_exact(&mut buf[..n])` against a buffered byte stream:
yields the first `n` bytes and the rest, or fails when fewer than `n`
bytes remain. -/
def readExact (buf : List Nat) (n : Nat) : Except HeaderError (List Nat × List Nat) :=
  if n ≤ buf.length then .ok (buf.take n, buf.drop n) else .error .incompleteHeader

/-- Receive-side header decode: the exact `read_exact` sequence of
`handle_incoming_file` (lines 447-484).  Returns the decoded header and the
remaining bytes (the payload). -/
def decodeHeader (buf : List Nat) : Except HeaderError (FileHeader × List Nat) := do
  let (idLenB, r1) ← readExact buf 4
  let (idB, r2) ← readExact r1 (beToNat idLenB)
  let (nameLenB, r3) ← readExact r2 4
  let (nameB, r4) ← readExact r3 (beToNat nameLenB)
  let (sizeB, r5) ← readExact r4 8
  let (startB, r6) ← readExact r5 8
  let (endB, r7) ← readExact r6 8
  let (hashLenB, r8) ← readExact r7 4
  let (hashB, r9) ← readExact r8 (beToNat hashLenB)
  return ({ fileId := idB, fileName := nameB, fileSize := beToNat sizeB,
            rangeStart := beToNat startB, rangeEnd := beToNat endB,
            fileHash := hashB }, r9)

/-- Send-side header encode: the exact `write_all` sequence of
`send_file_range` (lines 708-731). -/
def encodeHeader (h : FileHeader) : List Nat :=
  u32be h.fileId.length ++ h.fileId ++
  u32be h.fileName.length ++ h.fileName ++
  u64be h.fileSize ++ u64be h.rangeStart ++ u64be h.rangeEnd ++
  u32be h.fileHash.length ++ h.fileHash

/-- Concrete header of spec §8: id "abc", name "x.bin", size 10, range (0,10),
hash "deadbeef" repeated 8 times (64 hex characters). -/
def exampleHeader : FileHeader :=
  { fileId := [97, 98, 99]
    fileName := [120, 46, 98, 105, 110]
    fileSize := 10
    rangeStart := 0
    rangeEnd := 10
    fileHash := List.flatten (List.replicate 8 [100, 101, 97, 100, 98, 101, 101, 102]) }

/-! ### Range partitioning (file_transfer.rs, send_file lines 254-304) -/

/-- Ceiling division, as the source's `(a as f64 / b as f64).ceil() as u64`
(exact natural ceiling; the f64 computation is exact for realistic sizes). -/
def natCeilDiv (a b : Nat) : Nat := (a + b - 1) / b

/-- Stream-launch loop of `send_file` (lines 294-304): for each
`streamIdx` compute the chunk range, `break` once `start_chunk >= end_chunk`,
else record the byte range `(start_pos, end_pos)`. -/
def streamRangesLoop (fileSize chunkSize chunkCount cps streams idx : Nat) :
    List (Nat × Nat) :=
  if h : idx < streams then
    let startChunk := idx * cps
    let endChunk := min ((idx + 1) * cps) chunkCount
    if startChunk ≥ endChunk then []
    else
      (startChunk * chunkSize, min (endChunk * chunkSize) fileSize) ::
        streamRangesLoop fileSize chunkSize chunkCount cps streams (idx + 1)
  else []
termination_by streams - idx
decreasing_by omega

/-- Byte ranges sent by `send_file`: `chunk_count = ceil(file_size/chunk_size)`,
`chunks_per_stream = ceil(chunk_count/concurrent_streams)`, then the launch
loop over stream indices `0..concurrent_streams`. -/
def streamRanges (fileSize chunkSize streams : Nat) : List (Nat × Nat) :=
  let chunkCount := natCeilDiv fileSize chunkSize
  let chunksPerStream := natCeilDiv chunkCount streams
  streamRangesLoop fileSize chunkSize chunkCount chunksPerStream streams 0

/-- Boolean chain predicate: the ranges start at `a`, are contiguous
(each range's end is the next range's start), each is non-empty, and the
last one ends at `b`.  This expresses disjoint contiguous coverage of
`[a, b)`. -/
def rangeChain (a b : Nat) : List (Nat × Nat) → Bool
  | [] => a == b
  | r :: rest => r.1 == a && decide (a < r.2) && rangeChain r.2 b rest

/-! ### Send-path completion and events (file_transfer.rs, send_file lines 344-405) -/

/-- Transfer status events reported through the progress callback
(float-only fields — percentage, elapsed, throughput — omitted). -/
inductive TransferStatus where
  | started (fileId fileName : String) (fileSize : Nat)
  | progress (fileId : String) (bytesTransferred totalBytes : Nat)
  | completed (fileId : String) (bytesTransferred : Nat)
  | failed (fileId : String) (error : String)
deriving DecidableEq, Repr

/-- Outcome of awaiting one range-stream task: `Ok(Ok(()))`,
`Ok(Err(e))`, or a panicked join (`Err(e)`). -/
inductive StreamResult where
  | ok
  | err (e : String)
  | panicked (e : String)
deriving DecidableEq, Repr

/-- Error strings collected from the stream results, with the stream index,
exactly as pushed in `send_file` lines 348-362. -/
def streamErrors (i : Nat) : List StreamResult → List String
  | [] => []
  | .ok :: rest => streamErrors (i + 1) rest
  | .err e :: rest =>
      ("Stream " ++ toString i ++ " failed: " ++ e) :: streamErrors (i + 1) rest
  | .panicked e :: rest =>
      ("Stream " ++ toString i ++ " task panicked: " ++ e) :: streamErrors (i + 1) rest

/-- Tail of `send_file` (lines 344-405): await all stream tasks, collect
errors, emit exactly one `Completed` or `Failed` event (when a callback is
configured), and return `Ok(file_id)` or the fixed error
"File transfer failed". -/
def sendFileFinish (hasCallback : Bool) (fileId : String) (fileSize : Nat)
    (results : List StreamResult) : List TransferStatus × Except String String :=
  let errors := streamErrors 0 results
  let success := errors.isEmpty
  let events :=
    if hasCallback then
      if success then [TransferStatus.completed fileId fileSize]
      else [TransferStatus.failed fileId (String.intercalate ", " errors)]
    else []
  (events, if success then .ok fileId else .error "File transfer failed")

/-- Progress sampler of `send_file` (lines 266-291): each tick reads the
shared byte counter; once the reading reaches `totalBytes` the loop breaks
without emitting, otherwise it emits a `Progress` event.  The argument list
is the successive counter readings. -/
def progressSamples (fileId : String) (totalBytes : Nat) : List Nat → List TransferStatus
  | [] => []
  | b :: rest =>
    if b ≥ totalBytes then []
    else TransferStatus.progress fileId b totalBytes :: progressSamples fileId totalBytes rest

/-! ### Receive path (file_transfer.rs, handle_incoming_file lines 486-688) -/

/-- Range key of the tracking record: `"{start}-{end}"`. -/
def rangeKeyOf (a b : Nat) : String := toString a ++ "-" ++ toString b

/-- Content of a `{file_id}.parts` side record: a JSON map from range key to
completed-flag, modelled as an association list with `HashMap`-style insert. -/
abbrev PartsMap := List (String × Bool)

/-- `HashMap::insert`: replace the value at an existing key, else add the
key.  (A `HashMap` holds each key once; replacement keeps the entry count.) -/
def insertPart (m : PartsMap) (k : String) (v : Bool) : PartsMap :=
  if m.any (fun e => e.1 == k) then m.map (fun e => if e.1 == k then (k, v) else e)
  else m ++ [(k, v)]

/-- Phase-two tracking update (lines 633-648): mark this connection's range
key as completed in the record. -/
def trackingMarkComplete (m : PartsMap) (k : String) : PartsMap := insertPart m k true

/-- Full effect of one delivery of a range on the tracking record: the key is
first inserted as in-progress (`false`, lines 513-526) and at the end of the
copy overwritten with `true` (lines 633-648). -/
def deliverRange (m : PartsMap) (k : String) : PartsMap :=
  trackingMarkComplete (insertPart m k false) k

/-- Receiver configuration: chunk size and whether a progress callback is
configured. -/
structure RecvConfig where
  chunkSize : Nat
  hasCallback : Bool
deriving DecidableEq, Repr

/-- Per-`file_id` on-disk side records of the receiver: the `.parts`
tracking record and the `.hash` record (`none` = file absent). -/
structure RecvState where
  tracking : Option PartsMap
  hashRecord : Option String
deriving DecidableEq, Repr

/-- Decoded header fields as used by the receive handler (strings as Lean
strings at this layer). -/
structure RecvHeader where
  fileId : String
  fileName : String
  fileSize : Nat
  rangeStart : Nat
  rangeEnd : Nat
  fileHash : String
deriving DecidableEq, Repr

/-- Copy loop of the handler (lines 560-600): repeatedly read at most
`min(buffer, remaining)` bytes from the socket (the list holds the sizes the
socket yields), fail on a zero-size read before `need` bytes arrived, emit a
`Progress` event after each read.  Returns bytes received, events, success. -/
def recvLoop (cfg : RecvConfig) (fileId : String) (fileSize rangeStart need : Nat) :
    List Nat → Nat → Nat × List TransferStatus × Bool
  | [], received =>
    if received < need then (received, [], false) else (received, [], true)
  | r :: rest, received =>
    if received < need then
      let maxBytes := min cfg.chunkSize (need - received)
      let n := min r maxBytes
      if n = 0 then (received, [], false)
      else
        let received' := received + n
        let ev :=
          if cfg.hasCallback then
            [TransferStatus.progress fileId (rangeStart + received') fileSize]
          else []
        let rec' := recvLoop cfg fileId fileSize rangeStart need rest received'
        (rec'.1, ev ++ rec'.2.1, rec'.2.2)
    else (received, [], true)

/-- Result of one receive-handler run: updated side records, emitted events,
the tracking map on which the all-complete check was evaluated (`none` when
the copy failed before the check), whether whole-file hash verification ran,
and whether the handler returned `Ok`. -/
structure RecvResult where
  state : RecvState
  events : List TransferStatus
  partsAtCheck : Option PartsMap
  verificationRan : Bool
  success : Bool
deriving DecidableEq, Repr

/-- Receive handler `handle_incoming_file` after header decode
(lines 486-688): emit `Started`, create the hash record if absent, mark the
range in-progress, run the copy loop, emit `Completed`, mark the range
complete, and — when every value in the tracking record is `true` — run
whole-file hash verification and delete both side records. -/
def handleIncomingFile (cfg : RecvConfig) (st : RecvState) (hdr : RecvHeader)
    (reads : List Nat) : RecvResult :=
  let startedEvs :=
    if cfg.hasCallback then
      [TransferStatus.started hdr.fileId hdr.fileName hdr.fileSize]
    else []
  let rangeKey := rangeKeyOf hdr.rangeStart hdr.rangeEnd
  let hashRecord :=
    match st.hashRecord with
    | none => some hdr.fileHash
    | some h => some h
  let parts0 :=
    match st.tracking with
    | some m => m
    | none => []
  let parts1 := insertPart parts0 rangeKey false
  let need := hdr.rangeEnd - hdr.rangeStart
  let lr := recvLoop cfg hdr.fileId hdr.fileSize hdr.rangeStart need reads 0
  if lr.2.2 then
    let completedEvs :=
      if cfg.hasCallback then
        [TransferStatus.completed hdr.fileId (hdr.rangeStart + lr.1)]
      else []
    let parts2 := trackingMarkComplete parts1 rangeKey
    let allComplete := parts2.all fun e => e.2
    if allComplete then
      { state := { tracking := none, hashRecord := none }
        events := startedEvs ++ lr.2.1 ++ completedEvs
        partsAtCheck := some parts2
        verificationRan := hashRecord.isSome
        success := true }
    else
      { state := { tracking := some parts2, hashRecord := hashRecord }
        events := startedEvs ++ lr.2.1 ++ completedEvs
        partsAtCheck := some parts2
        verificationRan := false
        success := true }
  else
    { state := { tracking := some parts1, hashRecord := hashRecord }
      events := startedEvs ++ lr.2.1
      partsAtCheck := none
      verificationRan := false
      success := false }

/-! ### Interface selector (interface.rs) -/

/-- Interface classes (interface.rs lines 8-15). -/
inductive InterfaceType where
  | thunderbolt
  | ethernet
  | wifi
  | loopback
  | other
deriving DecidableEq, Repr

/-- Substring test, as Rust `str::contains`. -/
def containsSub (s pat : String) : Bool := decide (pat.toList <:+: s.toList)

/-- Prefix test, as Rust `str::starts_with`. -/
def beginsWith (s pat : String) : Bool := pat.toList.isPrefixOf s.toList

/-- Name pattern for Thunderbolt/bridge interfaces (lines 45-51). -/
def isThunderboltName (name : String) : Bool :=
  containsSub name "thunderbolt" || containsSub name "tb" || containsSub name "bridge" ||
    (beginsWith name "en" && (containsSub name "5" || containsSub name "6"))

/-- Name pattern for Ethernet interfaces (lines 54-58). -/
def isEthernetName (name : String) : Bool :=
  containsSub name "eth" || containsSub name "en" || beginsWith name "en"

/-- Name pattern for WiFi interfaces (lines 61-66). -/
def isWifiName (name : String) : Bool :=
  containsSub name "wlan" || containsSub name "wifi" || containsSub name "wi-fi" ||
    beginsWith name "wl"

/-- Loopback test (lines 69-75): name contains "lo" or the address is a
loopback address. -/
def isLoopbackIf (name : String) (ipLoopback : Bool) : Bool :=
  containsSub name "lo" || ipLoopback

/-- Classification of one interface (lines 78-90). -/
def detectInterfaceType (name : String) (ipLoopback : Bool) : InterfaceType :=
  if isLoopbackIf name ipLoopback then .loopback
  else if isThunderboltName name then .thunderbolt
  else if isEthernetName name then .ethernet
  else if isWifiName name then .wifi
  else .other

/-- Fixed class priorities (lines 28-34). -/
def interfacePriority : InterfaceType → Nat
  | .thunderbolt => 100
  | .ethernet => 80
  | .wifi => 60
  | .loopback => 10
  | .other => 1

/-- Raw interface as enumerated from the OS: name plus the relevant address
predicates. -/
structure RawAddr where
  name : String
  ipLoopback : Bool
  ipUnspecified : Bool
  ipMulticast : Bool
deriving DecidableEq, Repr

/-- Classified network interface (interface.rs lines 17-23). -/
structure NetworkInterface where
  name : String
  ipLoopback : Bool
  interfaceType : InterfaceType
  priority : Nat
deriving DecidableEq, Repr

/-- `NetworkInterface::new` (lines 26-42): classify and assign the class
priority. -/
def makeInterface (name : String) (ipLoopback : Bool) : NetworkInterface :=
  let t := detectInterfaceType name ipLoopback
  { name := name, ipLoopback := ipLoopback, interfaceType := t,
    priority := interfacePriority t }

/-- Stable insertion step of the descending-priority sort: a new element
goes after all existing elements of greater-or-equal priority and before the
first one of strictly smaller priority. -/
def insertByPriority (x : NetworkInterface) : List NetworkInterface → List NetworkInterface
  | [] => [x]
  | y :: ys => if y.priority < x.priority then x :: y :: ys else y :: insertByPriority x ys

/-- Stable sort by descending priority, modelling
`interfaces.sort_by(|a, b| b.priority.cmp(&a.priority))` (line 130) —
a stable sort putting higher priorities first, ties in enumeration order. -/
def sortByPriority : List NetworkInterface → List NetworkInterface
  | [] => []
  | x :: xs => insertByPriority x (sortByPriority xs)

/-- `discover_interfaces` (lines 94-142) on a given OS enumeration: skip
unspecified/multicast addresses, classify, and sort by descending priority
(Rust's stable `sort_by`). -/
def discoverInterfaces (raw : List RawAddr) : List NetworkInterface :=
  let ifs := raw.filterMap fun r =>
    if r.ipUnspecified || r.ipMulticast then none
    else some (makeInterface r.name r.ipLoopback)
  sortByPriority ifs

/-- `get_best_interface` (lines 145-156): first non-loopback entry of the
sorted list, else the no-suitable-interface error. -/
def getBestInterface (raw : List RawAddr) : Except String NetworkInterface :=
  match (discoverInterfaces raw).find? (fun i => decide (i.interfaceType ≠ .loopback)) with
  | some i => .ok i
  | none => .error "No suitable network interface found"

/-- The four interfaces of the spec's interface-ranking scenario (§8):
lo (loopback address), en0, en5, wl0. -/
def exampleRawAddrs : List RawAddr :=
  [{ name := "lo", ipLoopback := true, ipUnspecified := false, ipMulticast := false },
   { name := "en0", ipLoopback := false, ipUnspecified := false, ipMulticast := false },
   { name := "en5", ipLoopback := false, ipUnspecified := false, ipMulticast := false },
   { name := "wl0", ipLoopback := false, ipUnspecified := false, ipMulticast := false }]

/-! ### Discovery peer registry (discovery.rs) -/

/-- Node identity exchanged by discovery (discovery.rs lines 21-30). -/
structure NodeInfo where
  id : String
  name : String
  ip : String
  port : Nat
  interfaceType : String
  capabilities : List String
  version : String
deriving DecidableEq, Repr

/-- Advertisement TTL in seconds (discovery.rs line 17). -/
def advertiseTTL : Nat := 60

/-- Peer registry: map from node id to `(NodeInfo, last-seen instant)`,
modelled as an association list with `HashMap`-style insert; instants are
seconds. -/
abbrev PeerRegistry := List (String × NodeInfo × Nat)

/-- `HashMap::insert` on the registry. -/
def registryInsert (reg : PeerRegistry) (k : String) (v : NodeInfo × Nat) :
    PeerRegistry :=
  if reg.any (fun e => e.1 == k) then reg.map (fun e => if e.1 == k then (k, v) else e)
  else (k, v) :: reg

/-- Listener handling of `ServiceResolved` (lines 209-217): insert the node
keyed by its id, unless the id equals the local node's id. -/
def onServiceResolved (localId : String) (reg : PeerRegistry) (n : NodeInfo)
    (now : Nat) : PeerRegistry :=
  if n.id ≠ localId then registryInsert reg n.id (n, now) else reg

/-- Removal match of `ServiceRemoved` (lines 222-230): the part of the
removed service name before the first '.' contains the stored node's name. -/
def serviceRemovalMatches (serviceName nodeName : String) : Bool :=
  containsSub (serviceName.takeWhile (fun c => c != '.')) nodeName

/-- Listener handling of `ServiceRemoved` (lines 219-239): drop every entry
whose node name matches the removed service instance name. -/
def onServiceRemoved (reg : PeerRegistry) (serviceName : String) : PeerRegistry :=
  reg.filter fun e => ! serviceRemovalMatches serviceName e.2.1.name

/-- Pruning pass of `get_discovered_nodes` (lines 253-265): retain entries
whose last-seen age is at most twice the TTL. -/
def pruneRegistry (now : Nat) (reg : PeerRegistry) : PeerRegistry :=
  reg.filter fun e => ! decide (now - e.2.2 > 2 * advertiseTTL)

/-- `get_discovered_nodes` (lines 249-273): prune expired entries in place,
then return the remaining nodes.  Yields the updated registry and the
returned list. -/
def getDiscoveredNodes (now : Nat) (reg : PeerRegistry) :
    PeerRegistry × List NodeInfo :=
  let pruned := pruneRegistry now reg
  (pruned, pruned.map fun e => e.2.1)

/-- One mutation of the registry by the discovery service's tasks. -/
inductive RegistryStep (localId : String) : PeerRegistry → PeerRegistry → Prop where
  | resolved (reg : PeerRegistry) (n : NodeInfo) (now : Nat) :
      RegistryStep localId reg (onServiceResolved localId reg n now)
  | removed (reg : PeerRegistry) (serviceName : String) :
      RegistryStep localId reg (onServiceRemoved reg serviceName)
  | pruned (reg : PeerRegistry) (now : Nat) :
      RegistryStep localId reg (getDiscoveredNodes now reg).1

/-- Registries reachable from the empty registry the service starts with. -/
inductive RegistryReachable (localId : String) : PeerRegistry → Prop where
  | nil : RegistryReachable localId []
  | step {reg reg' : PeerRegistry} : RegistryReachable localId reg →
      RegistryStep localId reg reg' → RegistryReachable localId reg'

/-- Concrete remote node for witnesses. -/
def exampleNode : NodeInfo :=
  { id := "node-a", name := "alpha", ip := "10.0.0.2", port := 54321,
    interfaceType := "Ethernet", capabilities := ["discovery"], version := "0.1.0" }

/-! ## Theorems -/

/-! ### Codec lemmas -/

theorem beToNat_u32be (n : Nat) : beToNat (u32be n) = n % 4294967296 := by
  simp only [beToNat, u32be, List.foldl]
  omega

theorem beToNat_u64be (n : Nat) : beToNat (u64be n) = n % 18446744073709551616 := by
  simp only [beToNat, u64be, List.foldl]
  omega

theorem length_u32be (n : Nat) : (u32be n).length = 4 := rfl

theorem length_u64be (n : Nat) : (u64be n).length = 8 := rfl

theorem readExact_append (n : Nat) (x rest : List Nat) (hx : x.length = n) :
    readExact (x ++ rest) n = .ok (x, rest) := by
  subst hx
  unfold readExact
  rw [if_pos (by simp)]
  rw [List.take_left, List.drop_left]

theorem readExact_short (buf : List Nat) (n : Nat) (hb : buf.length < n) :
    readExact buf n = .error .incompleteHeader := by
  unfold readExact
  rw [if_neg (by omega)]

theorem readExact_take (n : Nat) (x rest : List Nat) (k : Nat) (hx : x.length = n) :
    readExact ((x ++ rest).take k) n =
      if k < n then .error .incompleteHeader else .ok (x, rest.take (k - n)) := by
  subst hx
  by_cases hk : k < x.length
  · rw [if_pos hk]
    apply readExact_short
    simp
    omega
  · rw [if_neg hk]
    rw [List.take_append_eq_append_take, List.take_of_length_le (by omega)]
    exact readExact_append x.length x _ rfl

theorem readExact_all (x : List Nat) : readExact x x.length = .ok (x, []) := by
  unfold readExact
  rw [if_pos (Nat.le_refl _)]
  rw [List.take_length, List.drop_length]

/-- C1: encoding a header with the sender's header-write sequence and decoding
the resulting buffer with the receiver's header-read sequence reproduces every
field exactly (fields within the wire-format ranges of §6: lengths in `u32`,
sizes/offsets in `u64`), with no payload bytes left over. -/
theorem headerRoundTrip (h : FileHeader)
    (hid : h.fileId.length < 4294967296)
    (hname : h.fileName.length < 4294967296)
    (hhash : h.fileHash.length < 4294967296)
    (hsize : h.fileSize < 18446744073709551616)
    (hstart : h.rangeStart < 18446744073709551616)
    (hend : h.rangeEnd < 18446744073709551616) :
    decodeHeader (encodeHeader h) = .ok (h, []) := by
  unfold decodeHeader encodeHeader
  simp only [List.append_assoc]
  rw [readExact_append 4 (u32be h.fileId.length) _ (length_u32be _)]
  simp only [Bind.bind, Except.bind, beToNat_u32be, Nat.mod_eq_of_lt hid]
  rw [readExact_append h.fileId.length h.fileId _ rfl]
  simp only [Except.bind]
  rw [readExact_append 4 (u32be h.fileName.length) _ (length_u32be _)]
  simp only [Except.bind, beToNat_u32be, Nat.mod_eq_of_lt hname]
  rw [readExact_append h.fileName.length h.fileName _ rfl]
  simp only [Except.bind]
  rw [readExact_append 8 (u64be h.fileSize) _ (length_u64be _)]
  simp only [Except.bind]
  rw [readExact_append 8 (u64be h.rangeStart) _ (length_u64be _)]
  simp only [Except.bind]
  rw [readExact_append 8 (u64be h.rangeEnd) _ (length_u64be _)]
  simp only [Except.bind]
  rw [readExact_append 4 (u32be h.fileHash.length) _ (length_u32be _)]
  simp only [Except.bind, beToNat_u32be, beToNat_u64be, Nat.mod_eq_of_lt hhash,
    Nat.mod_eq_of_lt hsize, Nat.mod_eq_of_lt hstart, Nat.mod_eq_of_lt hend]
  rw [readExact_all h.fileHash]
  simp only [Except.bind, pure, Except.pure]

/-- Witness for C1 at the concrete header of spec §8. -/
theorem headerRoundTrip_witness :
    (exampleHeader.fileId.length < 4294967296 ∧
     exampleHeader.fileName.length < 4294967296 ∧
     exampleHeader.fileHash.length < 4294967296 ∧
     exampleHeader.fileSize < 18446744073709551616 ∧
     exampleHeader.rangeStart < 18446744073709551616 ∧
     exampleHeader.rangeEnd < 18446744073709551616) ∧
    decodeHeader (encodeHeader exampleHeader) = .ok (exampleHeader, []) :=
  ⟨⟨by decide, by decide, by decide, by decide, by decide, by decide⟩,
   headerRoundTrip exampleHeader (by decide) (by decide) (by decide) (by decide)
     (by decide) (by decide)⟩

/-- C8: decoding any strict prefix of an encoded header buffer fails with the
incomplete-header error — it never returns a decoded header and never yields
wrong field values. -/
theorem headerDecodeTruncated (h : FileHeader)
    (hid : h.fileId.length < 4294967296)
    (hname : h.fileName.length < 4294967296)
    (hhash : h.fileHash.length < 4294967296)
    (k : Nat) (hk : k < (encodeHeader h).length) :
    decodeHeader ((encodeHeader h).take k) = .error .incompleteHeader := by
  have hlen : (encodeHeader h).length =
      36 + h.fileId.length + h.fileName.length + h.fileHash.length := by
    simp [encodeHeader, u32be, u64be]
    omega
  rw [hlen] at hk
  unfold decodeHeader encodeHeader
  simp only [List.append_assoc]
  rw [readExact_take 4 (u32be h.fileId.length) _ k (length_u32be _)]
  by_cases h1 : k < 4
  · rw [if_pos h1]
    simp only [Bind.bind, Except.bind]
  · rw [if_neg h1]
    simp only [Bind.bind, Except.bind, beToNat_u32be, Nat.mod_eq_of_lt hid]
    rw [readExact_take h.fileId.length h.fileId _ (k - 4) rfl]
    by_cases h2 : k - 4 < h.fileId.length
    · rw [if_pos h2]
    · rw [if_neg h2]
      simp only [Except.bind]
      rw [readExact_take 4 (u32be h.fileName.length) _ (k - 4 - h.fileId.length)
        (length_u32be _)]
      by_cases h3 : k - 4 - h.fileId.length < 4
      · rw [if_pos h3]
      · rw [if_neg h3]
        simp only [Except.bind, beToNat_u32be, Nat.mod_eq_of_lt hname]
        rw [readExact_take h.fileName.length h.fileName _ (k - 4 - h.fileId.length - 4) rfl]
        by_cases h4 : k - 4 - h.fileId.length - 4 < h.fileName.length
        · rw [if_pos h4]
        · rw [if_neg h4]
          simp only [Except.bind]
          rw [readExact_take 8 (u64be h.fileSize) _
            (k - 4 - h.fileId.length - 4 - h.fileName.length) (length_u64be _)]
          by_cases h5 : k - 4 - h.fileId.length - 4 - h.fileName.length < 8
          · rw [if_pos h5]
          · rw [if_neg h5]
            simp only [Except.bind]
            rw [readExact_take 8 (u64be h.rangeStart) _
              (k - 4 - h.fileId.length - 4 - h.fileName.length - 8) (length_u64be _)]
            by_cases h6 : k - 4 - h.fileId.length - 4 - h.fileName.length - 8 < 8
            · rw [if_pos h6]
            · rw [if_neg h6]
              simp only [Except.bind]
              rw [readExact_take 8 (u64be h.rangeEnd) _
                (k - 4 - h.fileId.length - 4 - h.fileName.length - 8 - 8) (length_u64be _)]
              by_cases h7 : k - 4 - h.fileId.length - 4 - h.fileName.length - 8 - 8 < 8
              · rw [if_pos h7]
              · rw [if_neg h7]
                simp only [Except.bind]
                rw [readExact_take 4 (u32be h.fileHash.length) _
                  (k - 4 - h.fileId.length - 4 - h.fileName.length - 8 - 8 - 8)
                  (length_u32be _)]
                by_cases h8 : k - 4 - h.fileId.length - 4 - h.fileName.length - 8 - 8 - 8 < 4
                · rw [if_pos h8]
                · rw [if_neg h8]
                  simp only [Except.bind, beToNat_u32be, Nat.mod_eq_of_lt hhash]
                  rw [readExact_short _ _ (by simp; omega)]

/-- Witness for C8: the §8 header's 108-byte encoding truncated to 50 bytes. -/
theorem headerDecodeTruncated_witness :
    (exampleHeader.fileId.length < 4294967296 ∧
     exampleHeader.fileName.length < 4294967296 ∧
     exampleHeader.fileHash.length < 4294967296 ∧
     50 < (encodeHeader exampleHeader).length) ∧
    decodeHeader ((encodeHeader exampleHeader).take 50) = .error .incompleteHeader :=
  ⟨⟨by decide, by decide, by decide, by decide⟩,
   headerDecodeTruncated exampleHeader (by decide) (by decide) (by decide) 50 (by decide)⟩

/-! ### Range-partition lemmas (C3) -/

theorem le_natCeilDiv_mul (a b : Nat) (hb : 0 < b) : a ≤ natCeilDiv a b * b := by
  unfold natCeilDiv
  have h1 := Nat.div_add_mod (a + b - 1) b
  have h2 := Nat.mod_lt (a + b - 1) hb
  rw [Nat.mul_comm] at h1
  omega

theorem natCeilDiv_mul_lt (a b : Nat) (hb : 0 < b) (ha : 0 < a) :
    natCeilDiv a b * b < a + b := by
  unfold natCeilDiv
  have h1 := Nat.div_add_mod (a + b - 1) b
  have h2 := Nat.mod_lt (a + b - 1) hb
  rw [Nat.mul_comm] at h1
  omega

theorem natCeilDiv_pos (a b : Nat) (ha : 0 < a) (hb : 0 < b) : 0 < natCeilDiv a b := by
  have h := le_natCeilDiv_mul a b hb
  rcases Nat.eq_zero_or_pos (natCeilDiv a b) with h0 | h0
  · rw [h0] at h
    simp at h
    omega
  · exact h0

theorem streamRangesLoop_nil_of_done {fileSize chunkSize chunkCount cps streams : Nat}
    (idx : Nat) (hdone : chunkCount ≤ idx * cps) :
    streamRangesLoop fileSize chunkSize chunkCount cps streams idx = [] := by
  rw [streamRangesLoop]
  by_cases hlt : idx < streams
  · rw [dif_pos hlt]
    rw [if_pos (le_trans (Nat.min_le_right _ _) hdone)]
  · rw [dif_neg hlt]

theorem streamRangesLoop_chain (fileSize chunkSize chunkCount cps streams : Nat)
    (hcs : 0 < chunkSize)
    (hA : fileSize ≤ chunkCount * chunkSize)
    (hB : chunkCount * chunkSize < fileSize + chunkSize)
    (hC : chunkCount ≤ streams * cps)
    (hcps : 0 < cps) :
    ∀ fuel idx, streams - idx ≤ fuel → idx < streams → idx * cps < chunkCount →
    rangeChain (idx * cps * chunkSize) fileSize
      (streamRangesLoop fileSize chunkSize chunkCount cps streams idx) = true := by
  intro fuel
  induction fuel with
  | zero => intro idx hfuel hlt _; omega
  | succ fuel ih =>
    intro idx hfuel hlt hstart
    have hsucc : (idx + 1) * cps = idx * cps + cps := Nat.succ_mul idx cps
    have hmul1 : (idx * cps + 1) * chunkSize ≤ chunkCount * chunkSize :=
      Nat.mul_le_mul_right chunkSize (by omega)
    have hadd1 : (idx * cps + 1) * chunkSize = idx * cps * chunkSize + chunkSize :=
      Nat.succ_mul _ _
    rw [streamRangesLoop, dif_pos hlt]
    rw [if_neg (not_le.mpr (lt_min_iff.mpr ⟨by omega, hstart⟩))]
    by_cases hnext : (idx + 1) * cps < chunkCount
    · have hmin1 : min ((idx + 1) * cps) chunkCount = (idx + 1) * cps :=
        Nat.min_eq_left (Nat.le_of_lt hnext)
      rw [hmin1]
      have hmul2 : ((idx + 1) * cps + 1) * chunkSize ≤ chunkCount * chunkSize :=
        Nat.mul_le_mul_right chunkSize (by omega)
      have hadd2 : ((idx + 1) * cps + 1) * chunkSize = (idx + 1) * cps * chunkSize + chunkSize :=
        Nat.succ_mul _ _
      have hadd3 : (idx + 1) * cps * chunkSize = idx * cps * chunkSize + cps * chunkSize := by
        rw [hsucc, Nat.add_mul]
      have hcpscs : 0 < cps * chunkSize := Nat.mul_pos hcps hcs
      have hmin2 : min ((idx + 1) * cps * chunkSize) fileSize = (idx + 1) * cps * chunkSize :=
        Nat.min_eq_left (by omega)
      rw [hmin2]
      have hlt2 : idx + 1 < streams := by
        have hs : (idx + 1) * cps < streams * cps := by omega
        exact lt_of_mul_lt_mul_right hs (Nat.zero_le cps)
      rw [rangeChain]
      simp only [beq_self_eq_true, Bool.true_and, decide_eq_true_eq, Bool.and_eq_true]
      constructor
      · omega
      · exact ih (idx + 1) (by omega) hlt2 hnext
    · have hmin1 : min ((idx + 1) * cps) chunkCount = chunkCount :=
        Nat.min_eq_right (by omega)
      rw [hmin1]
      have hmin2 : min (chunkCount * chunkSize) fileSize = fileSize :=
        Nat.min_eq_right hA
      rw [hmin2]
      rw [streamRangesLoop_nil_of_done (idx + 1) (by omega)]
      rw [rangeChain]
      simp only [beq_self_eq_true, Bool.true_and, decide_eq_true_eq, Bool.and_eq_true,
        rangeChain]
      exact ⟨by omega, trivial⟩

theorem streamRangesLoop_length (fileSize chunkSize chunkCount cps streams : Nat) :
    ∀ fuel idx, streams - idx ≤ fuel →
    (streamRangesLoop fileSize chunkSize chunkCount cps streams idx).length ≤ streams - idx := by
  intro fuel
  induction fuel with
  | zero =>
    intro idx hfuel
    rw [streamRangesLoop, dif_neg (by omega : ¬ idx < streams)]
    simp
  | succ fuel ih =>
    intro idx hfuel
    rw [streamRangesLoop]
    by_cases hlt : idx < streams
    · rw [dif_pos hlt]
      by_cases hbreak : idx * cps ≥ min ((idx + 1) * cps) chunkCount
      · rw [if_pos hbreak]
        simp
      · rw [if_neg hbreak]
        have h := ih (idx + 1) (by omega)
        simp only [List.length_cons]
        omega
    · rw [dif_neg hlt]
      simp

theorem streamRangesLoop_mem_lt (fileSize chunkSize chunkCount cps streams : Nat)
    (hB : chunkCount * chunkSize < fileSize + chunkSize) :
    ∀ fuel idx, streams - idx ≤ fuel →
    ∀ r ∈ streamRangesLoop fileSize chunkSize chunkCount cps streams idx,
      r.1 < fileSize := by
  intro fuel
  induction fuel with
  | zero =>
    intro idx hfuel r hr
    rw [streamRangesLoop, dif_neg (by omega : ¬ idx < streams)] at hr
    exact absurd hr (List.not_mem_nil r)
  | succ fuel ih =>
    intro idx hfuel r hr
    rw [streamRangesLoop] at hr
    by_cases hlt : idx < streams
    · rw [dif_pos hlt] at hr
      by_cases hbreak : idx * cps ≥ min ((idx + 1) * cps) chunkCount
      · rw [if_pos hbreak] at hr
        exact absurd hr (List.not_mem_nil r)
      · rw [if_neg hbreak] at hr
        rcases List.mem_cons.mp hr with h | h
        · have hstart : idx * cps < chunkCount :=
            lt_of_lt_of_le (lt_of_not_ge hbreak) (Nat.min_le_right _ _)
          have hmul1 : (idx * cps + 1) * chunkSize ≤ chunkCount * chunkSize :=
            Nat.mul_le_mul_right chunkSize (by omega)
          have hadd1 : (idx * cps + 1) * chunkSize = idx * cps * chunkSize + chunkSize :=
            Nat.succ_mul _ _
          rw [h]
          omega
        · exact ih (idx + 1) (by omega) r h
    · rw [dif_neg hlt] at hr
      exact absurd hr (List.not_mem_nil r)

theorem streamRangesLoop_span (fileSize chunkSize chunkCount cps streams : Nat)
    (hB : chunkCount * chunkSize < fileSize + chunkSize) :
    ∀ fuel idx, streams - idx ≤ fuel →
    ∀ i, i + 1 < (streamRangesLoop fileSize chunkSize chunkCount cps streams idx).length →
    ((streamRangesLoop fileSize chunkSize chunkCount cps streams idx).getD i (0, 0)).2 -
      ((streamRangesLoop fileSize chunkSize chunkCount cps streams idx).getD i (0, 0)).1 =
      cps * chunkSize := by
  intro fuel
  induction fuel with
  | zero =>
    intro idx hfuel i hi
    rw [streamRangesLoop, dif_neg (by omega : ¬ idx < streams)] at hi
    simp at hi
  | succ fuel ih =>
    intro idx hfuel i hi
    rw [streamRangesLoop] at hi ⊢
    by_cases hlt : idx < streams
    · rw [dif_pos hlt] at hi ⊢
      by_cases hbreak : idx * cps ≥ min ((idx + 1) * cps) chunkCount
      · rw [if_pos hbreak] at hi
        simp at hi
      · rw [if_neg hbreak] at hi ⊢
        by_cases hnext : (idx + 1) * cps < chunkCount
        · have hmin1 : min ((idx + 1) * cps) chunkCount = (idx + 1) * cps :=
            Nat.min_eq_left (Nat.le_of_lt hnext)
          rw [hmin1] at hi ⊢
          have hmul2 : ((idx + 1) * cps + 1) * chunkSize ≤ chunkCount * chunkSize :=
            Nat.mul_le_mul_right chunkSize (by omega)
          have hadd2 : ((idx + 1) * cps + 1) * chunkSize
              = (idx + 1) * cps * chunkSize + chunkSize := Nat.succ_mul _ _
          have hmin2 : min ((idx + 1) * cps * chunkSize) fileSize
              = (idx + 1) * cps * chunkSize := Nat.min_eq_left (by omega)
          rw [hmin2] at hi ⊢
          match i with
          | 0 =>
            have hadd3 : (idx + 1) * cps * chunkSize
                = idx * cps * chunkSize + cps * chunkSize := by
              rw [Nat.succ_mul idx cps, Nat.add_mul]
            simp only [List.getD_cons_zero]
            omega
          | j + 1 =>
            simp only [List.getD_cons_succ]
            simp only [List.length_cons] at hi
            exact ih (idx + 1) (by omega) j (by omega)
        · have hmin1 : min ((idx + 1) * cps) chunkCount = chunkCount :=
            Nat.min_eq_right (by omega)
          rw [hmin1] at hi
          rw [streamRangesLoop_nil_of_done (idx + 1) (by omega)] at hi
          simp at hi
    · rw [dif_neg hlt] at hi
      simp at hi

/-- C3: for positive file size, chunk size and stream count, `send_file`
partitions `[0, file_size)` into at most `concurrent_streams` contiguous,
disjoint, non-empty byte ranges covering exactly `[0, file_size)`
(expressed by `rangeChain 0 fileSize`); every range except possibly the last
spans `ceil(chunk_count / concurrent_streams)` chunks of `chunk_size` bytes;
and every emitted range starts strictly below `file_size` (ranges that would
start at or past the end are skipped). -/
theorem sendFilePartition (fileSize chunkSize streams : Nat)
    (hfs : 0 < fileSize) (hcs : 0 < chunkSize) (hstreams : 0 < streams) :
    (streamRanges fileSize chunkSize streams).length ≤ streams ∧
    rangeChain 0 fileSize (streamRanges fileSize chunkSize streams) = true ∧
    (∀ i, i + 1 < (streamRanges fileSize chunkSize streams).length →
      ((streamRanges fileSize chunkSize streams).getD i (0, 0)).2 -
        ((streamRanges fileSize chunkSize streams).getD i (0, 0)).1 =
        natCeilDiv (natCeilDiv fileSize chunkSize) streams * chunkSize) ∧
    (∀ r ∈ streamRanges fileSize chunkSize streams, r.1 < fileSize) := by
  have hA := le_natCeilDiv_mul fileSize chunkSize hcs
  have hB := natCeilDiv_mul_lt fileSize chunkSize hcs hfs
  have hcc : 0 < natCeilDiv fileSize chunkSize := natCeilDiv_pos _ _ hfs hcs
  have hC := le_natCeilDiv_mul (natCeilDiv fileSize chunkSize) streams hstreams
  rw [Nat.mul_comm] at hC
  have hcps : 0 < natCeilDiv (natCeilDiv fileSize chunkSize) streams :=
    natCeilDiv_pos _ _ hcc hstreams
  refine ⟨?_, ?_, ?_, ?_⟩
  · have h := streamRangesLoop_length fileSize chunkSize (natCeilDiv fileSize chunkSize)
      (natCeilDiv (natCeilDiv fileSize chunkSize) streams) streams streams 0 (by omega)
    simpa [streamRanges] using h
  · have h := streamRangesLoop_chain fileSize chunkSize (natCeilDiv fileSize chunkSize)
      (natCeilDiv (natCeilDiv fileSize chunkSize) streams) streams
      hcs hA hB hC hcps streams 0 (by omega) hstreams (by simpa using hcc)
    simpa [streamRanges] using h
  · have h := streamRangesLoop_span fileSize chunkSize (natCeilDiv fileSize chunkSize)
      (natCeilDiv (natCeilDiv fileSize chunkSize) streams) streams
      hB streams 0 (by omega)
    simpa [streamRanges] using h
  · have h := streamRangesLoop_mem_lt fileSize chunkSize (natCeilDiv fileSize chunkSize)
      (natCeilDiv (natCeilDiv fileSize chunkSize) streams) streams
      hB streams 0 (by omega)
    simpa [streamRanges] using h

/-- Witness for C3: a 10-byte file, 4-byte chunks, 4 streams yields the
ranges (0,4), (4,8), (8,10). -/
theorem sendFilePartition_witness :
    (0 < (10 : Nat) ∧ 0 < (4 : Nat)) ∧
    (streamRanges 10 4 4).length ≤ 4 ∧
    rangeChain 0 10 (streamRanges 10 4 4) = true :=
  ⟨⟨by decide, by decide⟩,
   (sendFilePartition 10 4 4 (by decide) (by decide) (by decide)).1,
   (sendFilePartition 10 4 4 (by decide) (by decide) (by decide)).2.1⟩

/-! ### Interface selector lemmas (C6) -/

theorem mem_insertByPriority (x : NetworkInterface) (l : List NetworkInterface)
    (y : NetworkInterface) : y ∈ insertByPriority x l ↔ y = x ∨ y ∈ l := by
  induction l with
  | nil => simp [insertByPriority]
  | cons z zs ih =>
    rw [insertByPriority]
    by_cases hz : z.priority < x.priority
    · rw [if_pos hz]
      simp
    · rw [if_neg hz]
      simp only [List.mem_cons, ih]
      tauto

theorem pairwise_insertByPriority (x : NetworkInterface) (l : List NetworkInterface)
    (h : List.Pairwise (fun a b => b.priority ≤ a.priority) l) :
    List.Pairwise (fun a b => b.priority ≤ a.priority) (insertByPriority x l) := by
  induction l with
  | nil => simp [insertByPriority]
  | cons z zs ih =>
    rw [insertByPriority]
    rcases List.pairwise_cons.mp h with ⟨hz, hzs⟩
    by_cases hlt : z.priority < x.priority
    · rw [if_pos hlt]
      refine List.pairwise_cons.mpr ⟨?_, h⟩
      intro w hw
      rcases List.mem_cons.mp hw with hw | hw
      · subst hw
        omega
      · have := hz w hw
        omega
    · rw [if_neg hlt]
      refine List.pairwise_cons.mpr ⟨?_, ih hzs⟩
      intro w hw
      rcases (mem_insertByPriority x zs w).mp hw with hw | hw
      · subst hw
        omega
      · exact hz w hw

theorem pairwise_sortByPriority (l : List NetworkInterface) :
    List.Pairwise (fun a b => b.priority ≤ a.priority) (sortByPriority l) := by
  induction l with
  | nil => simp [sortByPriority]
  | cons x xs ih => exact pairwise_insertByPriority x (sortByPriority xs) ih

theorem mem_sortByPriority (l : List NetworkInterface) (y : NetworkInterface) :
    y ∈ sortByPriority l ↔ y ∈ l := by
  induction l with
  | nil => simp [sortByPriority]
  | cons x xs ih =>
    rw [sortByPriority, mem_insertByPriority]
    simp only [List.mem_cons, ih]

theorem find_first_nonloopback (l : List NetworkInterface)
    (hp : List.Pairwise (fun a b => b.priority ≤ a.priority) l)
    (b : NetworkInterface)
    (hf : l.find? (fun i => decide (i.interfaceType ≠ .loopback)) = some b) :
    b.interfaceType ≠ .loopback ∧
      ∀ j ∈ l, j.interfaceType ≠ .loopback → j.priority ≤ b.priority := by
  induction l with
  | nil => simp at hf
  | cons x xs ih =>
    rcases List.pairwise_cons.mp hp with ⟨hx, hxs⟩
    rw [List.find?_cons_eq_some] at hf
    rcases hf with ⟨hpx, hxb⟩ | ⟨hnpx, hf⟩
    · subst hxb
      have hloop : x.interfaceType ≠ InterfaceType.loopback := by simpa using hpx
      refine ⟨hloop, ?_⟩
      intro j hj _
      rcases List.mem_cons.mp hj with hj | hj
      · subst hj
        omega
      · exact hx j hj
    · rcases ih hxs hf with ⟨hb, hmax⟩
      refine ⟨hb, ?_⟩
      intro j hj hjl
      rcases List.mem_cons.mp hj with hj | hj
      · subst hj
        have hloop : j.interfaceType = InterfaceType.loopback := by simpa using hnpx
        exact absurd hloop hjl
      · exact hmax j hj hjl

/-- C6: `get_best_interface` returns the first entry of the
descending-priority list whose class is not loopback — a non-loopback
interface of maximal priority among the non-loopback ones — and fails with
the no-suitable-interface error exactly when every discovered interface is
loopback.  On the spec §8 scenario {lo, en0, en5, wl0} it returns `en5`
(classified Thunderbolt/bridge, priority 100). -/
theorem getBestInterface_spec :
    (∀ raw : List RawAddr,
      ((∃ i ∈ discoverInterfaces raw, i.interfaceType ≠ .loopback) →
        ∃ b, getBestInterface raw = .ok b ∧ b.interfaceType ≠ .loopback ∧
          ∀ j ∈ discoverInterfaces raw, j.interfaceType ≠ .loopback →
            j.priority ≤ b.priority) ∧
      ((∀ i ∈ discoverInterfaces raw, i.interfaceType = .loopback) →
        getBestInterface raw = .error "No suitable network interface found")) ∧
    (getBestInterface exampleRawAddrs).toOption.map (fun i => i.name) = some "en5" := by
  constructor
  · intro raw
    constructor
    · intro hex
      unfold getBestInterface
      rcases hfind : (discoverInterfaces raw).find?
          (fun i => decide (i.interfaceType ≠ .loopback)) with _ | b
      · exfalso
        rcases hex with ⟨i, hi, hloop⟩
        have := List.find?_eq_none.mp hfind i hi
        simp [hloop] at this
      · have hp : List.Pairwise (fun a b => b.priority ≤ a.priority)
            (discoverInterfaces raw) := by
          unfold discoverInterfaces
          exact pairwise_sortByPriority _
        rcases find_first_nonloopback _ hp b hfind with ⟨hb, hmax⟩
        rw [hfind]
        exact ⟨b, rfl, hb, hmax⟩
    · intro hall
      unfold getBestInterface
      rcases hfind : (discoverInterfaces raw).find?
          (fun i => decide (i.interfaceType ≠ .loopback)) with _ | b
      · rw [hfind]
      · exfalso
        have hb := List.find?_some hfind
        have hmem := List.mem_of_find?_eq_some hfind
        have := hall b hmem
        simp [this] at hb
  · decide

/-- Witness for C6 at the §8 scenario: a non-loopback interface exists, and
the chosen interface is non-loopback with maximal priority among them. -/
theorem getBestInterface_witness :
    (∃ i ∈ discoverInterfaces exampleRawAddrs, i.interfaceType ≠ .loopback) ∧
    (∃ b, getBestInterface exampleRawAddrs = .ok b ∧ b.interfaceType ≠ .loopback ∧
      ∀ j ∈ discoverInterfaces exampleRawAddrs, j.interfaceType ≠ .loopback →
        j.priority ≤ b.priority) :=
  ⟨by decide, (getBestInterface_spec.1 exampleRawAddrs).1 (by decide)⟩

/-! ### Discovery registry lemmas (C5) -/

theorem registry_no_local_id (localId : String) (reg : PeerRegistry)
    (hreach : RegistryReachable localId reg) :
    ∀ e ∈ reg, e.2.1.id ≠ localId := by
  induction hreach with
  | nil =>
    intro e he
    simp at he
  | step hprev hstep ih =>
    cases hstep with
    | resolved n now =>
      intro e he
      unfold onServiceResolved registryInsert at he
      by_cases hid : n.id ≠ localId
      · rw [if_pos hid] at he
        split at he
        · rcases List.mem_map.mp he with ⟨a, ha, hfa⟩
          by_cases hak : a.1 == n.id
          · rw [if_pos hak] at hfa
            rw [← hfa]
            exact hid
          · rw [if_neg hak] at hfa
            rw [← hfa]
            exact ih a ha
        · rcases List.mem_cons.mp he with h | h
          · rw [h]
            exact hid
          · exact ih e h
      · rw [if_neg hid] at he
        exact ih e he
    | removed serviceName =>
      intro e he
      exact ih e (List.mem_of_mem_filter he)
    | pruned now =>
      intro e he
      exact ih e (List.mem_of_mem_filter he)

/-- C5: `get_discovered_nodes` prunes exactly the entries whose last-seen age
exceeds twice the TTL (120 s) and returns exactly the nodes of the remaining
entries; on every registry reachable from the empty start state by listener
events and pruning, the returned list never contains a node whose id equals
the local node's id, because the listener never inserts the local id. -/
theorem getDiscoveredNodes_spec (localId : String) (now : Nat) (reg : PeerRegistry)
    (hreach : RegistryReachable localId reg) :
    (∀ n ∈ (getDiscoveredNodes now reg).2,
      ∃ e ∈ reg, e.2.1 = n ∧ now - e.2.2 ≤ 2 * advertiseTTL) ∧
    (∀ e ∈ reg, now - e.2.2 ≤ 2 * advertiseTTL →
      e.2.1 ∈ (getDiscoveredNodes now reg).2) ∧
    (∀ e ∈ reg, now - e.2.2 > 2 * advertiseTTL →
      e ∉ (getDiscoveredNodes now reg).1) ∧
    (∀ n ∈ (getDiscoveredNodes now reg).2, n.id ≠ localId) := by
  have hinv := registry_no_local_id localId reg hreach
  refine ⟨?_, ?_, ?_, ?_⟩
  · intro n hn
    unfold getDiscoveredNodes pruneRegistry at hn
    simp only [List.mem_map] at hn
    rcases hn with ⟨e, he, hen⟩
    rcases List.mem_filter.mp he with ⟨hemem, hefresh⟩
    refine ⟨e, hemem, hen, ?_⟩
    simpa using hefresh
  · intro e he hfresh
    unfold getDiscoveredNodes pruneRegistry
    simp only [List.mem_map]
    refine ⟨e, ?_, rfl⟩
    refine List.mem_filter.mpr ⟨he, ?_⟩
    simpa using hfresh
  · intro e _ hstale hmem
    unfold getDiscoveredNodes pruneRegistry at hmem
    rcases List.mem_filter.mp hmem with ⟨_, hfresh⟩
    simp at hfresh
    omega
  · intro n hn
    unfold getDiscoveredNodes pruneRegistry at hn
    simp only [List.mem_map] at hn
    rcases hn with ⟨e, he, hen⟩
    rw [← hen]
    exact hinv e (List.mem_of_mem_filter he)

/-- Witness for C5: a registry holding one remote node resolved at time 10,
queried at time 20. -/
theorem getDiscoveredNodes_witness :
    RegistryReachable "local" (onServiceResolved "local" [] exampleNode 10) ∧
    ∀ n ∈ (getDiscoveredNodes 20 (onServiceResolved "local" [] exampleNode 10)).2,
      n.id ≠ "local" :=
  ⟨RegistryReachable.step RegistryReachable.nil (RegistryStep.resolved [] exampleNode 10),
   (getDiscoveredNodes_spec "local" 20 (onServiceResolved "local" [] exampleNode 10)
     (RegistryReachable.step RegistryReachable.nil
       (RegistryStep.resolved [] exampleNode 10))).2.2.2⟩

/-! ### Tracking-record lemmas (C7) -/

theorem insertPart_insertPart (m : PartsMap) (k : String) (v w : Bool) :
    insertPart (insertPart m k v) k w = insertPart m k w := by
  by_cases hany : m.any (fun e => e.1 == k)
  · have hin : insertPart m k v = m.map fun e => if e.1 == k then (k, v) else e := by
      rw [insertPart, if_pos hany]
    rw [hin]
    have hany2 : (m.map fun e => if e.1 == k then (k, v) else e).any
        (fun e => e.1 == k) = true := by
      rcases List.any_eq_true.mp hany with ⟨e, he, hpe⟩
      refine List.any_eq_true.mpr ⟨(k, v), List.mem_map.mpr ⟨e, he, by rw [if_pos hpe]⟩, ?_⟩
      simp
    rw [insertPart, if_pos hany2, insertPart, if_pos hany, List.map_map]
    apply List.map_congr_left
    intro e _
    by_cases he : e.1 == k
    · simp only [Function.comp_apply, if_pos he]
      simp
    · simp only [Function.comp_apply, if_neg he]
  · have hin : insertPart m k v = m ++ [(k, v)] := by
      rw [insertPart, if_neg hany]
    rw [hin]
    have hnone : ∀ e ∈ m, (e.1 == k) = false := by
      intro e he
      rcases Bool.eq_false_or_eq_true (e.1 == k) with h | h
      · exact absurd (List.any_eq_true.mpr ⟨e, he, h⟩) hany
      · exact h
    have hany2 : (m ++ [(k, v)]).any (fun e => e.1 == k) = true := by
      refine List.any_eq_true.mpr ⟨(k, v), ?_, by simp⟩
      simp
    rw [insertPart, if_pos hany2, insertPart, if_neg hany, List.map_append]
    have h1 : (m.map fun e => if e.1 == k then (k, w) else e) = m := by
      have hcg : ∀ e ∈ m, (if e.1 == k then (k, w) else e) = e := by
        intro e he
        rw [if_neg (by simp [hnone e he])]
      rw [List.map_congr_left hcg]
      exact List.map_id m
    have h2 : ([(k, v)].map fun e => if e.1 == k then (k, w) else e) = [(k, w)] := by
      simp
    rw [h1, h2]

theorem lookup_map_overwrite (k : String) (v : Bool) :
    ∀ m : PartsMap, m.any (fun e => e.1 == k) = true →
    (m.map fun e => if e.1 == k then (k, v) else e).lookup k = some v := by
  intro m
  induction m with
  | nil => intro h; simp at h
  | cons e es ih =>
    intro hany
    by_cases hek : (e.1 == k) = true
    · simp only [List.map_cons, if_pos hek]
      exact List.lookup_cons_self
    · simp only [List.map_cons, if_neg hek]
      have hke : (k == e.1) = false := by
        have hne : ¬ e.1 = k := by simpa using hek
        exact beq_eq_false_iff_ne.mpr (fun h => hne h.symm)
      have hany2 : es.any (fun e => e.1 == k) = true := by
        rcases List.any_eq_true.mp hany with ⟨x, hx, hpx⟩
        rcases List.mem_cons.mp hx with hx | hx
        · rw [hx] at hpx
          exact absurd hpx hek
        · exact List.any_eq_true.mpr ⟨x, hx, hpx⟩
      calc ((e.1, e.2) :: es.map fun e => if e.1 == k then (k, v) else e).lookup k
          = (es.map fun e => if e.1 == k then (k, v) else e).lookup k := by
            rw [List.lookup_cons, hke]
        _ = some v := ih hany2

theorem lookup_append_missing (k : String) (v : Bool) :
    ∀ m : PartsMap, (∀ e ∈ m, (e.1 == k) = false) →
    (m ++ [(k, v)]).lookup k = some v := by
  intro m
  induction m with
  | nil =>
    intro _
    simp
  | cons e es ih =>
    intro hnone
    have hke : (k == e.1) = false := by
      have hne : ¬ e.1 = k := by simpa using hnone e (List.mem_cons_self e es)
      exact beq_eq_false_iff_ne.mpr (fun h => hne h.symm)
    calc ((e :: es) ++ [(k, v)]).lookup k
        = ((e.1, e.2) :: (es ++ [(k, v)])).lookup k := by simp
      _ = (es ++ [(k, v)]).lookup k := by rw [List.lookup_cons, hke]
      _ = some v := ih (fun x hx => hnone x (List.mem_cons_of_mem e hx))

theorem lookup_insertPart (m : PartsMap) (k : String) (v : Bool) :
    (insertPart m k v).lookup k = some v := by
  by_cases hany : m.any (fun e => e.1 == k)
  · rw [insertPart, if_pos hany]
    exact lookup_map_overwrite k v m hany
  · rw [insertPart, if_neg hany]
    apply lookup_append_missing
    intro e he
    rcases Bool.eq_false_or_eq_true (e.1 == k) with h | h
    · exact absurd (List.any_eq_true.mpr ⟨e, he, h⟩) hany
    · exact h

/-- C7: duplicate delivery of the same byte range is idempotent on the
persisted tracking record: marking a range key complete a second time
overwrites the same key with `true` and leaves the record identical to the
record after the first delivery (no second key, no double counting), and the
same holds for a full re-delivery (in-progress mark followed by the complete
mark). -/
theorem duplicateRangeIdempotent (m : PartsMap) (k : String) :
    trackingMarkComplete (trackingMarkComplete m k) k = trackingMarkComplete m k ∧
    deliverRange (deliverRange m k) k = deliverRange m k ∧
    (trackingMarkComplete m k).lookup k = some true := by
  refine ⟨?_, ?_, ?_⟩
  · exact insertPart_insertPart m k true true
  · unfold deliverRange trackingMarkComplete
    rw [insertPart_insertPart, insertPart_insertPart]
  · exact lookup_insertPart m k true

/-! ### Receive-handler theorems (C2, C9) -/

/-- C9 counterexample: a connection whose file already has a tracking record
(so it does not carry the first range seen for its file_id) still emits a
`Started` event; the claim that `Started` is emitted only for the first range
is false on the code, which emits it unconditionally. -/
theorem receiverStarted_counterexample :
    (handleIncomingFile ⟨5, true⟩ ⟨some [("0-5", false)], some "h"⟩
        ⟨"f", "x", 10, 5, 10, "h"⟩ [5]).events.head? =
      some (TransferStatus.started "f" "x" 10) ∧
    (⟨some [("0-5", false)], some "h"⟩ : RecvState).tracking ≠ none := by
  constructor
  · rfl
  · simp

/-- C9 amended: the receive handler emits `Started` on every inbound
connection whose configuration carries a progress callback, regardless of
whether earlier ranges of the same file_id have been seen; the event list
always begins with `Started`. -/
theorem receiverStartedEveryConnection (cfg : RecvConfig) (st : RecvState)
    (hdr : RecvHeader) (reads : List Nat) (hcb : cfg.hasCallback = true) :
    (handleIncomingFile cfg st hdr reads).events.head? =
      some (TransferStatus.started hdr.fileId hdr.fileName hdr.fileSize) := by
  unfold handleIncomingFile
  simp only [hcb, if_true]
  split
  · split
    · simp
    · simp
  · simp

/-- Witness for the amended C9 at a concrete connection. -/
theorem receiverStartedEveryConnection_witness :
    (⟨5, true⟩ : RecvConfig).hasCallback = true ∧
    (handleIncomingFile ⟨5, true⟩ ⟨none, none⟩ ⟨"g", "y", 7, 0, 7, "h"⟩ [7]).events.head? =
      some (TransferStatus.started "g" "y" 7) :=
  ⟨rfl, receiverStartedEveryConnection ⟨5, true⟩ ⟨none, none⟩ ⟨"g", "y", 7, 0, 7, "h"⟩ [7] rfl⟩

/-- C2 counterexample: a 10-byte file whose sender splits it into ranges
0-5 and 5-10.  The first connection (range 0-5) completes while the key
"5-10" is entirely absent from the tracking record, yet the receiver runs
whole-file verification and deletes both side records: an absent expected
range key does not block the gate, contradicting the claim that
verification runs only when every expected range key is present and true. -/
theorem completionGate_counterexample :
    (handleIncomingFile ⟨5, false⟩ ⟨none, none⟩ ⟨"f", "x", 10, 0, 5, "h"⟩ [5]).verificationRan
        = true ∧
    (handleIncomingFile ⟨5, false⟩ ⟨none, none⟩ ⟨"f", "x", 10, 0, 5, "h"⟩
        [5]).partsAtCheck = some [("0-5", true)] ∧
    (handleIncomingFile ⟨5, false⟩ ⟨none, none⟩ ⟨"f", "x", 10, 0, 5, "h"⟩ [5]).state =
      ⟨none, none⟩ := by
  refine ⟨rfl, rfl, rfl⟩

/-- C2 amended: on every successfully handled connection, whole-file
verification runs exactly when every range key recorded in the tracking
record is marked true (range keys of the transfer that are absent from the
record do not block it); when it runs, both side records are deleted, and
when it does not run, the updated tracking record remains. -/
theorem completionGate (cfg : RecvConfig) (st : RecvState) (hdr : RecvHeader)
    (reads : List Nat)
    (hok : (handleIncomingFile cfg st hdr reads).success = true) :
    ∃ m, (handleIncomingFile cfg st hdr reads).partsAtCheck = some m ∧
      ((handleIncomingFile cfg st hdr reads).verificationRan = true ↔
        m.all (fun e => e.2) = true) ∧
      ((handleIncomingFile cfg st hdr reads).verificationRan = true →
        (handleIncomingFile cfg st hdr reads).state = ⟨none, none⟩) ∧
      ((handleIncomingFile cfg st hdr reads).verificationRan = false →
        (handleIncomingFile cfg st hdr reads).state.tracking = some m) := by
  by_cases hlr : (recvLoop cfg hdr.fileId hdr.fileSize hdr.rangeStart
      (hdr.rangeEnd - hdr.rangeStart) reads 0).2.2 = true
  · by_cases hall : ((trackingMarkComplete (insertPart (match st.tracking with
        | some m => m
        | none => []) (rangeKeyOf hdr.rangeStart hdr.rangeEnd) false)
        (rangeKeyOf hdr.rangeStart hdr.rangeEnd)).all fun e => e.2) = true
    · refine ⟨trackingMarkComplete (insertPart (match st.tracking with
          | some m => m
          | none => []) (rangeKeyOf hdr.rangeStart hdr.rangeEnd) false)
          (rangeKeyOf hdr.rangeStart hdr.rangeEnd), ?_, ?_, ?_, ?_⟩
      · simp [handleIncomingFile, hlr, hall]
      · cases hst : st.hashRecord <;> simp [handleIncomingFile, hlr, hall, hst]
      · intro _
        simp [handleIncomingFile, hlr, hall]
      · intro hv
        cases hst : st.hashRecord <;> simp [handleIncomingFile, hlr, hall, hst] at hv
    · refine ⟨trackingMarkComplete (insertPart (match st.tracking with
          | some m => m
          | none => []) (rangeKeyOf hdr.rangeStart hdr.rangeEnd) false)
          (rangeKeyOf hdr.rangeStart hdr.rangeEnd), ?_, ?_, ?_, ?_⟩
      · simp [handleIncomingFile, hlr, hall]
      · simp [handleIncomingFile, hlr, hall]
      · intro hv
        simp [handleIncomingFile, hlr, hall] at hv
      · intro _
        simp [handleIncomingFile, hlr, hall]
  · exfalso
    simp [handleIncomingFile, hlr] at hok

/-- Witness for the amended C2: the connection of the counterexample
scenario (all recorded keys true, so verification runs and the records are
deleted). -/
theorem completionGate_witness :
    (handleIncomingFile ⟨5, false⟩ ⟨none, none⟩ ⟨"f", "x", 10, 0, 5, "h"⟩ [5]).success
        = true ∧
    ∃ m, (handleIncomingFile ⟨5, false⟩ ⟨none, none⟩ ⟨"f", "x", 10, 0, 5, "h"⟩
          [5]).partsAtCheck = some m ∧
      ((handleIncomingFile ⟨5, false⟩ ⟨none, none⟩ ⟨"f", "x", 10, 0, 5, "h"⟩
          [5]).verificationRan = true ↔ m.all (fun e => e.2) = true) ∧
      ((handleIncomingFile ⟨5, false⟩ ⟨none, none⟩ ⟨"f", "x", 10, 0, 5, "h"⟩
          [5]).verificationRan = true →
        (handleIncomingFile ⟨5, false⟩ ⟨none, none⟩ ⟨"f", "x", 10, 0, 5, "h"⟩
          [5]).state = ⟨none, none⟩) ∧
      ((handleIncomingFile ⟨5, false⟩ ⟨none, none⟩ ⟨"f", "x", 10, 0, 5, "h"⟩
          [5]).verificationRan = false →
        (handleIncomingFile ⟨5, false⟩ ⟨none, none⟩ ⟨"f", "x", 10, 0, 5, "h"⟩
          [5]).state.tracking = some m) :=
  ⟨rfl, completionGate ⟨5, false⟩ ⟨none, none⟩ ⟨"f", "x", 10, 0, 5, "h"⟩ [5] rfl⟩

/-! ### Send-path theorems (C4, C10) -/

/-- C4 counterexample: with one failing stream, the `Failed` event carries
the per-stream error list, but the error returned to the caller of
`send_file` is the fixed string "File transfer failed" — it does not list
the failing streams, contradicting the claim that the returned error lists
every failing stream as its one failure reason. -/
theorem sendFileError_counterexample :
    (sendFileFinish true "f" 10 [.err "boom"]).2 = .error "File transfer failed" ∧
    (sendFileFinish true "f" 10 [.err "boom"]).1 =
      [TransferStatus.failed "f" "Stream 0 failed: boom"] ∧
    "File transfer failed" ≠ "Stream 0 failed: boom" := by
  refine ⟨rfl, rfl, by decide⟩

/-- C4 amended: if at least one range task fails, exactly one `Failed` event
is emitted (when a callback is configured) whose error string is the
", "-joined concatenation of every failing stream's error, and the call
returns the fixed opaque error "File transfer failed" (which does not
enumerate the streams); if no task fails, no `Failed` event is emitted, a
single `Completed` event is, and the call returns the file id. -/
theorem sendFileError (cb : Bool) (fid : String) (fs : Nat)
    (results : List StreamResult) :
    (sendFileFinish cb fid fs results).2 =
      (if streamErrors 0 results = [] then .ok fid
       else .error "File transfer failed") ∧
    (sendFileFinish cb fid fs results).1 =
      (if cb then
        if streamErrors 0 results = [] then [TransferStatus.completed fid fs]
        else [TransferStatus.failed fid
          (String.intercalate ", " (streamErrors 0 results))]
       else []) := by
  unfold sendFileFinish
  by_cases h : streamErrors 0 results = []
  · simp [h]
  · simp [h]

/-- C10: the send-side progress sampler checks the shared counter before
emitting: every emitted `Progress` event reports strictly fewer bytes than
the total, and once an observed counter value has reached the total the
sampler stops without emitting (so the sender never emits a 100% `Progress`
event). -/
theorem progressSamplesStrict (fid : String) (total : Nat) (obs : List Nat) :
    (∀ b, TransferStatus.progress fid b total ∈ progressSamples fid total obs →
      b < total) ∧
    (∀ pre b post, (∀ x ∈ pre, x < total) → total ≤ b →
      progressSamples fid total (pre ++ b :: post) =
        pre.map fun x => TransferStatus.progress fid x total) := by
  constructor
  · intro b
    induction obs with
    | nil =>
      intro hb
      simp [progressSamples] at hb
    | cons o os ih =>
      intro hb
      rw [progressSamples] at hb
      by_cases ho : o ≥ total
      · rw [if_pos ho] at hb
        simp at hb
      · rw [if_neg ho] at hb
        rcases List.mem_cons.mp hb with h | h
        · have := congrArg (fun e => match e with
            | TransferStatus.progress _ x _ => x
            | _ => 0) h
          simp at this
          omega
        · exact ih h
  · intro pre
    induction pre with
    | nil =>
      intro b post _ hb
      rw [List.nil_append, progressSamples, if_pos hb]
      simp
    | cons x xs ih =>
      intro b post hpre hb
      rw [List.cons_append, progressSamples]
      have hx : x < total := hpre x (List.mem_cons_self x xs)
      rw [if_neg (by omega)]
      rw [List.map_cons]
      rw [ih b post (fun y hy => hpre y (List.mem_cons_of_mem x hy)) hb]

/-- Witness for C10: sampling counter readings 3, 7, 10, 12 against a
10-byte total emits progress for 3 and 7 only, each strictly below 10. -/
theorem progressSamplesStrict_witness :
    (TransferStatus.progress "f" 3 10 ∈ progressSamples "f" 10 [3, 7, 10, 12]) ∧
    3 < 10 ∧
    progressSamples "f" 10 [3, 7, 10, 12] =
      [TransferStatus.progress "f" 3 10, TransferStatus.progress "f" 7 10] :=
  ⟨by decide, (progressSamplesStrict "f" 10 [3, 7, 10, 12]).1 3 (by decide), by decide⟩

end NodeController
